import Mathlib

/-!
# Verification of the mmaictl resource pipeline

A shallow embedding of the flattening / projection / resolution / aggregation
pipeline of `mmaictl` (`src/utils.py`, `src/api_client.py`,
`src/commands/department.py`, `src/commands/billing.py`, `src/mmaictl.py`),
together with proofs of the specified properties.

JSON values are modelled by the inductive `JVal`; Python `dict`s are modelled
as association lists in insertion order (`Fields`), with `pyDict`/`dictInsert`
reproducing Python's dict-construction semantics (first occurrence fixes the
position, the last assignment fixes the value).  Network calls are abstracted
as explicit `fetch` functions returning `Except`, with `Except.error`
corresponding to a raised Python exception.
-/

/-- A JSON value as retrieved from the control plane: strings, numbers,
booleans, null, nested mappings (in insertion order) and sequences.
Python `None` and JSON `null` are both `JVal.null`. -/
inductive JVal where
  | str (s : String)
  | num (n : Int)
  | bool (b : Bool)
  | null
  | obj (fields : List (String × JVal))
  | arr (elems : List JVal)
  deriving Repr

/-- The contents of a Python `dict` with `JVal` values, in insertion order. -/
abbrev Fields := List (String × JVal)

/-- Python `d[k] = v` on a dict: overwrite in place if the key is present
(keeping its position), otherwise append at the end. -/
def dictInsert : Fields → String → JVal → Fields
  | [], k, v => [(k, v)]
  | (k', w) :: rest, k, v =>
      if k' = k then (k, v) :: rest else (k', w) :: dictInsert rest k v

/-- Python `dict(items)`: insert the pairs left to right into an empty dict. -/
def pyDict (items : Fields) : Fields :=
  items.foldl (fun d kv => dictInsert d kv.1 kv.2) []

/-- The `items` list built by `flatten_json` in `src/utils.py` before the final
`dict(items)`: mapping values are expanded recursively (each recursive call
returns a Python dict, hence the inner `pyDict`), any other value is kept as a
leaf.  The separator is always the default `'.'`; no call site overrides it. -/
def flattenItems : Fields → String → Fields
  | [], _ => []
  | (k, JVal.obj sub) :: rest, pk =>
      pyDict (flattenItems sub (if pk = "" then k else pk ++ "." ++ k)) ++ flattenItems rest pk
  | (k, v) :: rest, pk =>
      ((if pk = "" then k else pk ++ "." ++ k), v) :: flattenItems rest pk
termination_by l _ => sizeOf l
decreasing_by all_goals (simp_wf <;> omega)

/-- `flatten_json(nested_json, parent_key)` from `src/utils.py`
(`dict(items)` applied to the accumulated items). -/
def flatten_json (fields : Fields) (parent_key : String) : Fields :=
  pyDict (flattenItems fields parent_key)

/-- Split a character list at every occurrence of `c`
(the semantics of Python's `str.split(c)`): `[] ↦ [[]]`. -/
def splitChars (c : Char) : List Char → List (List Char)
  | [] => [[]]
  | a :: rest =>
      if a = c then [] :: splitChars c rest
      else
        match splitChars c rest with
        | [] => [[a]]
        | g :: gs => (a :: g) :: gs

/-- Python `s.split(c)` for a single-character separator `c`. -/
def splitOnChar (c : Char) (s : String) : List String :=
  (splitChars c s.data).map (fun l => String.mk l)

/-- Python `s.split('.')`. -/
def splitDots (s : String) : List String := splitOnChar '.' s

/-- Render a segment path as a dot-joined string. -/
def joinDots : List String → String
  | [] => ""
  | [s] => s
  | s :: rest => s ++ "." ++ joinDots rest

/-- The key string `flatten_json` produces for the leaf at segment path
`path` below parent key `pk`. -/
def dottedKey (pk : String) (path : List String) : String :=
  if pk = "" then joinDots path else pk ++ "." ++ joinDots path

/-- The segments contributed by a parent key: none when it is empty,
its dot-split otherwise. -/
def parentSegs (pk : String) : List String :=
  if pk = "" then [] else splitDots pk

/-- All leaves of a record with their segment paths: a mapping value is
descended into, anything else (sequences included) is a leaf. -/
def allLeaves : Fields → List (List String × JVal)
  | [] => []
  | (k, JVal.obj sub) :: rest =>
      (allLeaves sub).map (fun pv => (k :: pv.1, pv.2)) ++ allLeaves rest
  | (k, v) :: rest => ([k], v) :: allLeaves rest
termination_by l => sizeOf l
decreasing_by all_goals (simp_wf <;> omega)

/-- The scalar (non-mapping, non-sequence) leaves of a record with their
segment paths. -/
def scalarLeaves : Fields → List (List String × JVal)
  | [] => []
  | (k, JVal.obj sub) :: rest =>
      (scalarLeaves sub).map (fun pv => (k :: pv.1, pv.2)) ++ scalarLeaves rest
  | (_, JVal.arr _) :: rest => scalarLeaves rest
  | (k, v) :: rest => ([k], v) :: scalarLeaves rest
termination_by l => sizeOf l
decreasing_by all_goals (simp_wf <;> omega)

/-- Well-formedness of a record for round-tripping: at every nesting level the
keys are nonempty, contain no `'.'`, and are pairwise distinct (the last is
automatic for actual Python dicts). -/
def goodB : Fields → Bool
  | [] => true
  | (k, JVal.obj sub) :: rest =>
      k != "" && !(k.data.contains '.') && !(rest.any fun p => p.1 == k)
        && goodB sub && goodB rest
  | (k, _) :: rest =>
      k != "" && !(k.data.contains '.') && !(rest.any fun p => p.1 == k) && goodB rest
termination_by l => sizeOf l
decreasing_by all_goals (simp_wf <;> omega)

/-- Drop entries whose value is a mapping with no leaves (such entries produce
no flattened keys, so re-nesting cannot recover them). -/
def pruneFields : Fields → Fields
  | [] => []
  | (k, JVal.obj sub) :: rest =>
      (if (pruneFields sub).isEmpty then [] else [(k, JVal.obj (pruneFields sub))])
        ++ pruneFields rest
  | (k, v) :: rest => (k, v) :: pruneFields rest
termination_by l => sizeOf l
decreasing_by all_goals (simp_wf <;> omega)

/-- Wrap a record under a nested chain of single-key mappings. -/
def nestSegs : List String → Fields → Fields
  | [], f => f
  | s :: rest, f => [(s, JVal.obj (nestSegs rest f))]

/-- Modelled from the spec: one step of "re-nesting by splitting each
flattened key on `.` and rebuilding a tree" (the inverse operation named by
the round-trip property; it does not appear in `src/`).  Inserts a value at a
segment path, descending through existing mapping entries, creating missing
ones at the end, and overwriting non-mapping intermediate values. -/
def insertPath : Fields → List String → JVal → Fields
  | fields, [], _ => fields
  | fields, [k], v => dictInsert fields k v
  | [], k :: k2 :: rest, v => [(k, JVal.obj (insertPath [] (k2 :: rest) v))]
  | (k', w) :: fs, k :: k2 :: rest, v =>
      if k' = k then
        (k, JVal.obj (insertPath
            (match w with | JVal.obj sub => sub | _ => []) (k2 :: rest) v)) :: fs
      else
        (k', w) :: insertPath fs (k :: k2 :: rest) v
termination_by fields path _ => (path.length, fields.length)

/-- Insert a list of segment-path/value pairs left to right. -/
def segInsertAll (acc : Fields) (l : List (List String × JVal)) : Fields :=
  l.foldl (fun a pv => insertPath a pv.1 pv.2) acc

/-- Modelled from the spec: re-nest a flattened record by splitting each key
on `.` and rebuilding a tree. -/
def renest (flat : Fields) : Fields :=
  flat.foldl (fun a kv => insertPath a (splitDots kv.1) kv.2) []

/-- The key walk of `extract_field` in `filter_json` (`src/utils.py`):
descend through mappings, `none` as soon as a key is absent or the current
value is not a mapping. -/
def extractKeys : JVal → List String → Option JVal
  | o, [] => some o
  | JVal.obj fields, key :: rest =>
      match fields.find? (fun p => p.1 == key) with
      | some p => extractKeys p.2 rest
      | none => none
  | _, _ :: _ => none

/-- `extract_field(obj, field)` from `filter_json` in `src/utils.py`:
split the field on `'.'`, walk the record, and return Python `None`
(= `JVal.null`) when resolution fails. -/
def extract_field (o : JVal) (field : String) : JVal :=
  match extractKeys o (splitDots field) with
  | some v => v
  | none => JVal.null

/-- The dict comprehension `{field: extract_field(item, field) for field in
filters}` from `src/utils.py`. -/
def project_fields (filters : List String) (item : JVal) : Fields :=
  pyDict (filters.map (fun f => (f, extract_field item f)))

/-- `filter_json(data, filters)` from `src/utils.py`. -/
def filter_json (data : JVal) (filters : List String) : JVal :=
  match data with
  | JVal.arr items => JVal.arr (items.map (fun it => JVal.obj (project_fields filters it)))
  | JVal.obj _ => JVal.obj (project_fields filters data)
  | v => v

/-- A cluster reference `{name, uid}` as returned by the control plane. -/
structure Cluster where
  name : String
  uid : String
  deriving Repr, DecidableEq

/-- The single/multiple-cluster auto-selection tail of `get_cluster_uid`
(`src/utils.py`), reached when the identifier is falsy. -/
def auto_select_cluster (clusters : List Cluster) : Except String String :=
  match clusters with
  | [c] => Except.ok c.uid
  | cs =>
      Except.error ("Multiple clusters found. Specify a cluster with --cluster. Available clusters: "
        ++ String.intercalate ", " (cs.map Cluster.name))

/-- `get_cluster_uid(client, cluster_identifier)` from `src/utils.py`, with the
network call `client.get("clusters")` abstracted into the `clusters` argument.
`Except.error m` models `raise Exception(m)`.  Note Python's
`if cluster_identifier:` treats both `None` and `""` as absent. -/
def get_cluster_uid (clusters : List Cluster) (cluster_identifier : Option String) :
    Except String String :=
  if clusters.isEmpty then Except.error "No clusters found."
  else
    match cluster_identifier with
    | some ident =>
        if ident = "" then auto_select_cluster clusters
        else
          match clusters.find? (fun c => c.name == ident || c.uid == ident) with
          | some c => Except.ok c.uid
          | none => Except.error ("Cluster '" ++ ident ++ "' not found.")
    | none => auto_select_cluster clusters

/-- Modelled from the requests library documentation (the library is not part
of this repository): `response.raise_for_status()` raises `HTTPError`
precisely for status codes 400-599; informational, success and redirect
statuses do not raise. -/
def raise_for_status (status : Nat) : Except String Unit :=
  if 400 ≤ status ∧ status < 600 then
    Except.error ("HTTP error " ++ toString status)
  else Except.ok ()

/-- `APIClient.delete` from `src/api_client.py`, as a function of the response
status code: `raise_for_status()` then `return response.status_code == 204`. -/
def APIClient.delete (status : Nat) : Except String Bool :=
  match raise_for_status status with
  | Except.error e => Except.error e
  | Except.ok _ => Except.ok (decide (status = 204))

/-- `if args.filter: filters = args.filter.split(',')` from the listing
commands: a missing or empty (falsy) `--filter` means no projection. -/
def parse_filters : Option String → Option (List String)
  | none => none
  | some s => if s = "" then none else some (splitOnChar ',' s)

/-- The flatten prefix `f"cluster[{cluster_name}].department[{i}]"` from
`list_departments` in `src/commands/department.py`. -/
def deptKey (cluster_name : String) (i : Nat) : String :=
  "cluster[" ++ cluster_name ++ "].department[" ++ toString i ++ "]"

/-- Python `enumerate` followed by a map. -/
def mapIdxFrom {α β : Type} (f : Nat → α → β) : Nat → List α → List β
  | _, [] => []
  | i, a :: rest => f i a :: mapIdxFrom f (i + 1) rest

/-- One cluster's contribution to the `list_departments` aggregation
(`src/commands/department.py`): an empty fetch is skipped (contributes
nothing); otherwise the optional field filter is applied per element and each
department is flattened under the cluster/index prefix. -/
def contribOf (cluster_name : String) (deps : List Fields) (filterArg : Option String) :
    List Fields :=
  if deps.isEmpty then []
  else
    let projected := match parse_filters filterArg with
      | some fs => deps.map (fun d => project_fields fs (JVal.obj d))
      | none => deps
    mapIdxFrom (fun i d => flatten_json d (deptKey cluster_name i)) 0 projected

/-- The per-cluster aggregation loop of `list_departments`
(`src/commands/department.py`, lines 62-81): clusters are fetched strictly in
order; a raising fetch (`Except.error`) aborts the whole aggregation with no
partial result. -/
def aggregate_departments :
    List Cluster → (String → Except String (List Fields)) → Option String →
      Except String (List Fields)
  | [], _, _ => Except.ok []
  | c :: rest, fetch, filterArg =>
      match fetch c.uid with
      | Except.error e => Except.error e
      | Except.ok deps =>
          match aggregate_departments rest fetch filterArg with
          | Except.error e => Except.error e
          | Except.ok others => Except.ok (contribOf c.name deps filterArg ++ others)

/-- How the cluster-selection prelude of the listing commands ends: with no
(or a falsy) selector and an empty cluster list it logs `"No clusters
found."` and returns `None`; a raising `get_cluster_uid` propagates to the
handler's `except` block. -/
inductive SelectErr where
  | noClusters
  | raised (msg : String)
  deriving Repr, DecidableEq

/-- The no-selector branch: fetch all clusters (`isinstance(clusters, list)`
always holds in the typed model). -/
def select_all (clusters : List Cluster) : Except SelectErr (List Cluster) :=
  if clusters.isEmpty then Except.error SelectErr.noClusters else Except.ok clusters

/-- The cluster-selection prelude of `list_departments` (and the analogous
listing commands): with a truthy `--cluster` the resolved pair
`[{"name": args.cluster, "uid": cluster_uid}]` is used — the *name* field is
the user-supplied identifier verbatim; otherwise all clusters are listed. -/
def select_clusters (clusters : List Cluster) (selector : Option String) :
    Except SelectErr (List Cluster) :=
  match selector with
  | none => select_all clusters
  | some s =>
      if s = "" then select_all clusters
      else
        match get_cluster_uid clusters (some s) with
        | Except.ok uid => Except.ok [⟨s, uid⟩]
        | Except.error m => Except.error (SelectErr.raised m)

/-- How a `list_departments` invocation can fail internally. -/
inductive DeptErr where
  | noClusters
  | failed (msg : String)
  deriving Repr, DecidableEq

/-- The data `list_departments` accumulates in `all_departments`
(the flattened, optionally projected records; `src/commands/department.py`). -/
def list_departments_data (clusters : List Cluster) (selector : Option String)
    (fetch : String → Except String (List Fields)) (filterArg : Option String) :
    Except DeptErr (List Fields) :=
  match select_clusters clusters selector with
  | Except.error SelectErr.noClusters => Except.error DeptErr.noClusters
  | Except.error (SelectErr.raised m) => Except.error (DeptErr.failed m)
  | Except.ok cs =>
      match aggregate_departments cs fetch filterArg with
      | Except.error e => Except.error (DeptErr.failed e)
      | Except.ok recs => Except.ok recs

/-- The JSON value whose pretty-printing `list_departments` returns in
`--output json` mode: `json.dumps(all_departments, indent=4)` serializes the
list of *flattened* records. -/
def list_departments_json (clusters : List Cluster) (selector : Option String)
    (fetch : String → Except String (List Fields)) (filterArg : Option String) :
    Except DeptErr JVal :=
  match list_departments_data clusters selector fetch filterArg with
  | Except.error e => Except.error e
  | Except.ok recs => Except.ok (JVal.arr (recs.map JVal.obj))

/-- What a command handler invocation does at the `main` boundary: return a
value (printed by `main`) or raise. -/
inductive CmdOutcome where
  | returned (value : String)
  | raised (msg : String)
  deriving Repr, DecidableEq

/-- The command boundary in `main` (`src/mmaictl.py`, lines 73-80): a normal
return is printed and the process exits 0; an exception is logged as
`Error: <message>` and the process exits 1. -/
def main_dispatch : CmdOutcome → String × Nat
  | CmdOutcome.returned v => (v, 0)
  | CmdOutcome.raised m => ("Error: " ++ m, 1)

/-- The outcome and error-level log lines of a (text-mode) `list_departments`
invocation: every internal error is caught by the handler's own
`try`/`except`, logged (`"No clusters found."` or
`"Failed to fetch departments: ..."`), and the handler returns `None` —
it never raises.  (In text mode the success path also returns `None` after
printing the records.) -/
def list_departments_outcome (clusters : List Cluster) (selector : Option String)
    (fetch : String → Except String (List Fields)) (filterArg : Option String) :
    CmdOutcome × List String :=
  match list_departments_data clusters selector fetch filterArg with
  | Except.error DeptErr.noClusters => (CmdOutcome.returned "None", ["No clusters found."])
  | Except.error (DeptErr.failed m) =>
      (CmdOutcome.returned "None", ["Failed to fetch departments: " ++ m])
  | Except.ok _ => (CmdOutcome.returned "None", [])

/-- `add_department` (`src/commands/department.py`) has no `try`/`except`:
the POST result is returned, an exception propagates to `main`. -/
def add_department_outcome (post : Fields → Except String String) (data : Fields) :
    CmdOutcome :=
  match post data with
  | Except.ok v => CmdOutcome.returned v
  | Except.error m => CmdOutcome.raised m

/-- The optional field filter of `list_billing` (`src/commands/billing.py`). -/
def apply_billing_filter (filterArg : Option String) (billing : List Fields) : List Fields :=
  match parse_filters filterArg with
  | some fs => billing.map (fun b => project_fields fs (JVal.obj b))
  | none => billing

/-- `list_billing` (`src/commands/billing.py`): any exception inside the
handler is caught and *returned* as the string `f"Error: {str(e)}"` (so `main`
prints it and exits 0).  The success-path rendering is abstracted into
`render`. -/
def list_billing_result (clusters : List Cluster) (selector : Option String)
    (fetch : String → Except String (List Fields)) (filterArg : Option String)
    (render : List Fields → String) : String :=
  match get_cluster_uid clusters selector with
  | Except.error m => "Error: " ++ m
  | Except.ok uid =>
      match fetch uid with
      | Except.error m => "Error: " ++ m
      | Except.ok billing => render (apply_billing_filter filterArg billing)

/-- A one-cluster control plane used by concrete instances below. -/
def demo_clusters : List Cluster := [⟨"alpha", "u1"⟩]

/-- A fetch returning one department `{"n": "d"}` for cluster uid `u1`. -/
def demo_fetch : String → Except String (List Fields) :=
  fun uid => if uid = "u1" then Except.ok [[("n", JVal.str "d")]] else Except.ok []

/-! ## Splitting and joining dot paths -/

theorem splitChars_ne_nil (c : Char) (l : List Char) : splitChars c l ≠ [] := by
  induction l with
  | nil => simp [splitChars]
  | cons a rest ih =>
      simp only [splitChars]
      split
      · simp
      · split
        · simp
        · simp

theorem splitChars_append (c : Char) (a b : List Char) :
    splitChars c (a ++ c :: b) = splitChars c a ++ splitChars c b := by
  induction a with
  | nil => simp [splitChars]
  | cons x xs ih =>
      obtain ⟨g, gs, hgs⟩ := List.exists_cons_of_ne_nil (splitChars_ne_nil c xs)
      by_cases hx : x = c
      · subst hx; simp [splitChars, ih]
      · simp [splitChars, hx, ih, hgs]

theorem splitChars_of_not_mem (c : Char) (l : List Char) (h : c ∉ l) :
    splitChars c l = [l] := by
  induction l with
  | nil => simp [splitChars]
  | cons x xs ih =>
      rw [List.mem_cons, not_or] at h
      have hx : x ≠ c := fun hh => h.1 hh.symm
      simp [splitChars, hx, ih h.2]

theorem splitDots_append (s t : String) :
    splitDots (s ++ "." ++ t) = splitDots s ++ splitDots t := by
  unfold splitDots splitOnChar
  rw [String.data_append, String.data_append]
  have hdot : ("." : String).data = ['.'] := rfl
  rw [hdot, List.append_assoc, List.singleton_append, splitChars_append]
  simp

theorem splitDots_of_dotFree (s : String) (h : ¬ s.data.contains '.') :
    splitDots s = [s] := by
  unfold splitDots splitOnChar
  rw [splitChars_of_not_mem]
  · rfl
  · intro hmem
    exact h (List.elem_iff.mpr hmem)

theorem splitDots_ne_nil (s : String) : splitDots s ≠ [] := by
  unfold splitDots splitOnChar
  intro h
  exact splitChars_ne_nil '.' s.data (by simpa using h)

theorem joinDots_cons (s : String) (rest : List String) (h : rest ≠ []) :
    joinDots (s :: rest) = s ++ "." ++ joinDots rest := by
  cases rest with
  | nil => exact absurd rfl h
  | cons t ts => rfl

theorem splitDots_joinDots (path : List String) (hne : path ≠ [])
    (h : ∀ s ∈ path, ¬ s.data.contains '.') :
    splitDots (joinDots path) = path := by
  induction path with
  | nil => exact absurd rfl hne
  | cons s rest ih =>
      cases rest with
      | nil => simp [joinDots, splitDots_of_dotFree s (h s (by simp))]
      | cons t ts =>
          rw [joinDots_cons s (t :: ts) (by simp), splitDots_append,
            splitDots_of_dotFree s (h s (by simp)),
            ih (by simp) (fun x hx => h x (List.mem_cons_of_mem _ hx))]
          simp

theorem splitDots_dottedKey (pk : String) (path : List String) (hne : path ≠ [])
    (h : ∀ s ∈ path, ¬ s.data.contains '.') :
    splitDots (dottedKey pk path) = parentSegs pk ++ path := by
  unfold dottedKey parentSegs
  by_cases hpk : pk = ""
  · simp [hpk, splitDots_joinDots path hne h]
  · rw [if_neg hpk, if_neg hpk, splitDots_append, splitDots_joinDots path hne h]

/-! ## Python dict construction -/

theorem dictInsert_of_not_mem (d : Fields) (k : String) (v : JVal)
    (h : ∀ p ∈ d, p.1 ≠ k) : dictInsert d k v = d ++ [(k, v)] := by
  induction d with
  | nil => rfl
  | cons q rest ih =>
      obtain ⟨k', w⟩ := q
      have hk : k' ≠ k := h (k', w) (by simp)
      simp only [dictInsert, if_neg hk, List.cons_append, List.cons.injEq, true_and]
      exact ih (fun q hq => h q (List.mem_cons_of_mem _ hq))

theorem foldl_dictInsert_nodup (l : Fields) :
    ∀ d : Fields, ((d ++ l).map Prod.fst).Nodup →
      List.foldl (fun d kv => dictInsert d kv.1 kv.2) d l = d ++ l := by
  induction l with
  | nil => intro d _; simp
  | cons kv rest ih =>
      intro d hnd
      obtain ⟨k, v⟩ := kv
      have h1 : dictInsert d k v = d ++ [(k, v)] := by
        apply dictInsert_of_not_mem
        intro p hp hpk
        have hk : k ∈ d.map Prod.fst := hpk ▸ List.mem_map_of_mem Prod.fst hp
        have hnd' := hnd
        rw [List.map_append] at hnd'
        exact List.disjoint_of_nodup_append hnd' hk (by simp)
      rw [List.foldl_cons]
      show List.foldl _ (dictInsert d k v) rest = _
      rw [h1, ih (d ++ [(k, v)]) (by simpa using hnd)]
      simp

theorem pyDict_of_nodupKeys (l : Fields) (h : (l.map Prod.fst).Nodup) : pyDict l = l := by
  have := foldl_dictInsert_nodup l [] (by simpa using h)
  simpa [pyDict] using this

theorem mem_dictInsert (d : Fields) (k : String) (v : JVal) (p : String × JVal)
    (hp : p ∈ dictInsert d k v) : p ∈ d ∨ p = (k, v) := by
  induction d with
  | nil => simpa [dictInsert] using hp
  | cons q rest ih =>
      obtain ⟨k', w⟩ := q
      by_cases hk : k' = k
      · rw [dictInsert, if_pos hk] at hp
        rcases List.mem_cons.mp hp with h | h
        · exact Or.inr h
        · exact Or.inl (List.mem_cons_of_mem _ h)
      · rw [dictInsert, if_neg hk] at hp
        rcases List.mem_cons.mp hp with h | h
        · exact Or.inl (h ▸ List.mem_cons_self _ _)
        · rcases ih h with h' | h'
          · exact Or.inl (List.mem_cons_of_mem _ h')
          · exact Or.inr h'

theorem mem_foldl_dictInsert (l : Fields) :
    ∀ (d : Fields) (p : String × JVal),
      p ∈ List.foldl (fun d kv => dictInsert d kv.1 kv.2) d l → p ∈ d ∨ p ∈ l := by
  induction l with
  | nil => intro d p hp; exact Or.inl (by simpa using hp)
  | cons kv rest ih =>
      intro d p hp
      rw [List.foldl_cons] at hp
      rcases ih (dictInsert d kv.1 kv.2) p hp with h | h
      · rcases mem_dictInsert _ _ _ _ h with h' | h'
        · exact Or.inl h'
        · exact Or.inr (by simp [h'])
      · exact Or.inr (List.mem_cons_of_mem _ h)

theorem mem_pyDict (l : Fields) (p : String × JVal) (hp : p ∈ pyDict l) : p ∈ l := by
  rcases mem_foldl_dictInsert l [] p hp with h | h
  · simp at h
  · exact h

/-! ## Unfolding equations for the nested-recursive definitions -/

theorem allLeaves_nil : allLeaves [] = [] := by simp [allLeaves]

theorem allLeaves_obj (k : String) (sub rest : Fields) :
    allLeaves ((k, JVal.obj sub) :: rest)
      = (allLeaves sub).map (fun pv => (k :: pv.1, pv.2)) ++ allLeaves rest := by
  simp [allLeaves]

theorem allLeaves_leaf (k : String) (v : JVal) (rest : Fields)
    (h : ∀ sub, v = JVal.obj sub → False) :
    allLeaves ((k, v) :: rest) = ([k], v) :: allLeaves rest := by
  cases v <;> first | (exact absurd rfl (h _)) | simp [allLeaves]

theorem scalarLeaves_nil : scalarLeaves [] = [] := by simp [scalarLeaves]

theorem scalarLeaves_obj (k : String) (sub rest : Fields) :
    scalarLeaves ((k, JVal.obj sub) :: rest)
      = (scalarLeaves sub).map (fun pv => (k :: pv.1, pv.2)) ++ scalarLeaves rest := by
  simp [scalarLeaves]

theorem scalarLeaves_arr (k : String) (es : List JVal) (rest : Fields) :
    scalarLeaves ((k, JVal.arr es) :: rest) = scalarLeaves rest := by
  simp [scalarLeaves]

theorem scalarLeaves_leaf (k : String) (v : JVal) (rest : Fields)
    (hobj : ∀ sub, v = JVal.obj sub → False) (harr : ∀ es, v = JVal.arr es → False) :
    scalarLeaves ((k, v) :: rest) = ([k], v) :: scalarLeaves rest := by
  cases v <;>
    first
      | (exact absurd rfl (hobj _))
      | (exact absurd rfl (harr _))
      | simp [scalarLeaves]

theorem pruneFields_nil : pruneFields [] = [] := by simp [pruneFields]

theorem pruneFields_obj (k : String) (sub rest : Fields) :
    pruneFields ((k, JVal.obj sub) :: rest)
      = (if (pruneFields sub).isEmpty then [] else [(k, JVal.obj (pruneFields sub))])
          ++ pruneFields rest := by
  simp [pruneFields]

theorem pruneFields_leaf (k : String) (v : JVal) (rest : Fields)
    (h : ∀ sub, v = JVal.obj sub → False) :
    pruneFields ((k, v) :: rest) = (k, v) :: pruneFields rest := by
  cases v <;> first | (exact absurd rfl (h _)) | simp [pruneFields]

theorem goodB_obj (k : String) (sub rest : Fields) :
    goodB ((k, JVal.obj sub) :: rest)
      = (k != "" && !(k.data.contains '.') && !(rest.any fun p => p.1 == k)
          && goodB sub && goodB rest) := by
  simp only [goodB]

theorem goodB_leaf (k : String) (v : JVal) (rest : Fields)
    (h : ∀ sub, v = JVal.obj sub → False) :
    goodB ((k, v) :: rest)
      = (k != "" && !(k.data.contains '.') && !(rest.any fun p => p.1 == k)
          && goodB rest) := by
  cases v <;> first | (exact absurd rfl (h _)) | simp only [goodB]

theorem goodB_cons_iff (k : String) (v : JVal) (rest : Fields) :
    goodB ((k, v) :: rest) = true ↔
      (k ≠ "" ∧ '.' ∉ k.data ∧ (∀ a b, (a, b) ∈ rest → a ≠ k) ∧
        (∀ sub, v = JVal.obj sub → goodB sub = true) ∧ goodB rest = true) := by
  cases v with
  | obj sub => rw [goodB_obj]; simp [List.any_eq_true]; aesop
  | _ => rw [goodB_leaf _ _ _ (by intro _ h; cases h)]; simp [List.any_eq_true]; aesop

theorem flattenItems_nil (pk : String) : flattenItems [] pk = [] := by
  simp [flattenItems]

theorem flattenItems_obj (k : String) (sub rest : Fields) (pk : String) :
    flattenItems ((k, JVal.obj sub) :: rest) pk
      = pyDict (flattenItems sub (if pk = "" then k else pk ++ "." ++ k))
          ++ flattenItems rest pk := by
  simp [flattenItems]

theorem flattenItems_leaf (k : String) (v : JVal) (rest : Fields) (pk : String)
    (h : ∀ sub, v = JVal.obj sub → False) :
    flattenItems ((k, v) :: rest) pk
      = ((if pk = "" then k else pk ++ "." ++ k), v) :: flattenItems rest pk := by
  cases v <;> first | (exact absurd rfl (h _)) | simp [flattenItems]

/-! ## Structure of the leaf list -/

theorem allLeaves_path_ne_nil (fields : Fields) :
    ∀ pv ∈ allLeaves fields, pv.1 ≠ [] := by
  induction fields using allLeaves.induct with
  | case1 => simp [allLeaves_nil]
  | case2 k sub rest ih1 ih2 =>
      intro pv hpv
      rw [allLeaves_obj] at hpv
      rcases List.mem_append.mp hpv with h | h
      · obtain ⟨qv, hqv, rfl⟩ := List.mem_map.mp h
        simp
      · exact ih2 pv h
  | case3 k v rest hne ih =>
      intro pv hpv
      rw [allLeaves_leaf _ _ _ hne] at hpv
      rcases List.mem_cons.mp hpv with h | h
      · simp [h]
      · exact ih pv h

theorem allLeaves_head_mem (fields : Fields) :
    ∀ pv ∈ allLeaves fields, ∃ k path', pv.1 = k :: path' ∧ ∃ w, (k, w) ∈ fields := by
  induction fields using allLeaves.induct with
  | case1 => simp [allLeaves_nil]
  | case2 k sub rest ih1 ih2 =>
      intro pv hpv
      rw [allLeaves_obj] at hpv
      rcases List.mem_append.mp hpv with h | h
      · obtain ⟨qv, hqv, rfl⟩ := List.mem_map.mp h
        exact ⟨k, qv.1, rfl, JVal.obj sub, List.mem_cons_self _ _⟩
      · obtain ⟨k', p', hp', w, hw⟩ := ih2 pv h
        exact ⟨k', p', hp', w, List.mem_cons_of_mem _ hw⟩
  | case3 k v rest hne ih =>
      intro pv hpv
      rw [allLeaves_leaf _ _ _ hne] at hpv
      rcases List.mem_cons.mp hpv with h | h
      · exact ⟨k, [], by simp [h], v, by simp⟩
      · obtain ⟨k', p', hp', w, hw⟩ := ih pv h
        exact ⟨k', p', hp', w, List.mem_cons_of_mem _ hw⟩

theorem allLeaves_segs_good (fields : Fields) :
    goodB fields = true → ∀ pv ∈ allLeaves fields, ∀ s ∈ pv.1, s ≠ "" ∧ '.' ∉ s.data := by
  induction fields using allLeaves.induct with
  | case1 => intro _; simp [allLeaves_nil]
  | case2 k sub rest ih1 ih2 =>
      intro hg pv hpv
      rw [goodB_cons_iff] at hg
      obtain ⟨hk, hkdot, hdis, hsub, hrest⟩ := hg
      rw [allLeaves_obj] at hpv
      rcases List.mem_append.mp hpv with h | h
      · obtain ⟨qv, hqv, rfl⟩ := List.mem_map.mp h
        intro s hs
        rcases List.mem_cons.mp hs with rfl | hs'
        · exact ⟨hk, hkdot⟩
        · exact ih1 (hsub sub rfl) qv hqv s hs'
      · exact ih2 hrest pv h
  | case3 k v rest hne ih =>
      intro hg pv hpv
      rw [goodB_cons_iff] at hg
      obtain ⟨hk, hkdot, hdis, _, hrest⟩ := hg
      rw [allLeaves_leaf _ _ _ hne] at hpv
      rcases List.mem_cons.mp hpv with h | h
      · intro s hs
        rw [h] at hs
        rcases List.mem_cons.mp hs with rfl | hs'
        · exact ⟨hk, hkdot⟩
        · simp at hs'
      · exact ih hrest pv h

theorem allLeaves_paths_nodup (fields : Fields) :
    goodB fields = true → ((allLeaves fields).map Prod.fst).Nodup := by
  induction fields using allLeaves.induct with
  | case1 => intro _; simp [allLeaves_nil]
  | case2 k sub rest ih1 ih2 =>
      intro hg
      rw [goodB_cons_iff] at hg
      obtain ⟨hk, hkdot, hdis, hsub, hrest⟩ := hg
      rw [allLeaves_obj, List.map_append]
      apply List.Nodup.append
      · rw [List.map_map]
        have heq : (Prod.fst ∘ fun pv : List String × JVal => (k :: pv.1, pv.2))
            = (fun l => k :: l) ∘ Prod.fst := rfl
        rw [heq, ← List.map_map]
        exact (ih1 (hsub sub rfl)).map (fun a b h => by simpa using h)
      · exact ih2 hrest
      · intro p hp hp'
        rw [List.map_map] at hp
        obtain ⟨qv, hqv, hqe⟩ := List.mem_map.mp hp
        obtain ⟨pv, hpv, hpe⟩ := List.mem_map.mp hp'
        obtain ⟨k', p', hp'', w, hw⟩ := allLeaves_head_mem rest pv hpv
        have : k' :: p' = p := by rw [← hp'', hpe]
        have hkk : k' = k := by
          rw [← hqe] at this
          simpa using congrArg (fun l => l.headI) this
        exact hdis k' w hw hkk
  | case3 k v rest hne ih =>
      intro hg
      rw [goodB_cons_iff] at hg
      obtain ⟨hk, hkdot, hdis, _, hrest⟩ := hg
      rw [allLeaves_leaf _ _ _ hne, List.map_cons]
      rw [List.nodup_cons]
      refine ⟨?_, ih hrest⟩
      intro hmem
      obtain ⟨pv, hpv, hpe⟩ := List.mem_map.mp hmem
      obtain ⟨k', p', hp', w, hw⟩ := allLeaves_head_mem rest pv hpv
      have : k' :: p' = [k] := by rw [← hp', hpe]
      have hkk : k' = k := by simpa using congrArg (fun l => l.headI) this
      exact hdis k' w hw hkk

/-! ## What flatten_json produces on well-formed records -/

theorem string_append_ne_empty (a k : String) : a ++ "." ++ k ≠ "" := by
  intro h
  have h1 := congrArg String.length h
  rw [String.length_append, String.length_append] at h1
  have h2 : String.length "." = 1 := rfl
  have h3 : String.length "" = 0 := rfl
  rw [h2, h3] at h1
  omega

theorem dottedKey_cons (pk k : String) (path : List String) (hk : k ≠ "")
    (hpath : path ≠ []) :
    dottedKey (if pk = "" then k else pk ++ "." ++ k) path = dottedKey pk (k :: path) := by
  unfold dottedKey
  by_cases hpk : pk = ""
  · subst hpk
    rw [if_pos rfl, if_pos rfl, if_neg hk, joinDots_cons k path hpath]
  · rw [if_neg hpk, if_neg hpk, if_neg (string_append_ne_empty pk k),
      joinDots_cons k path hpath]
    simp [String.append_assoc]

theorem dottedKey_singleton (pk k : String) :
    dottedKey pk [k] = if pk = "" then k else pk ++ "." ++ k := by
  simp [dottedKey, joinDots]

theorem dottedKey_inj_on (pk : String) (x y : List String)
    (hx1 : x ≠ []) (hx2 : ∀ s ∈ x, s ≠ "" ∧ '.' ∉ s.data)
    (hy1 : y ≠ []) (hy2 : ∀ s ∈ y, s ≠ "" ∧ '.' ∉ s.data)
    (hxy : dottedKey pk x = dottedKey pk y) : x = y := by
  have hsx : splitDots (dottedKey pk x) = parentSegs pk ++ x :=
    splitDots_dottedKey pk x hx1 (fun s hs hc => (hx2 s hs).2 (List.elem_iff.mp hc))
  have hsy : splitDots (dottedKey pk y) = parentSegs pk ++ y :=
    splitDots_dottedKey pk y hy1 (fun s hs hc => (hy2 s hs).2 (List.elem_iff.mp hc))
  have h := congrArg splitDots hxy
  rw [hsx, hsy] at h
  exact List.append_cancel_left h

theorem dottedKeys_nodup (fields : Fields) (pk : String) (hg : goodB fields = true) :
    (((allLeaves fields).map (fun pv => (dottedKey pk pv.1, pv.2))).map Prod.fst).Nodup := by
  rw [List.map_map]
  have heq : (Prod.fst ∘ fun pv : List String × JVal => (dottedKey pk pv.1, pv.2))
      = (fun path => dottedKey pk path) ∘ Prod.fst := rfl
  rw [heq, ← List.map_map]
  refine List.Nodup.map_on ?_ (allLeaves_paths_nodup fields hg)
  intro x hx y hy hxy
  obtain ⟨pvx, hpvx, rfl⟩ := List.mem_map.mp hx
  obtain ⟨pvy, hpvy, rfl⟩ := List.mem_map.mp hy
  exact dottedKey_inj_on pk _ _ (allLeaves_path_ne_nil fields pvx hpvx)
    (allLeaves_segs_good fields hg pvx hpvx) (allLeaves_path_ne_nil fields pvy hpvy)
    (allLeaves_segs_good fields hg pvy hpvy) hxy

theorem flattenItems_good (fields : Fields) (pk : String) :
    goodB fields = true →
      flattenItems fields pk = (allLeaves fields).map (fun pv => (dottedKey pk pv.1, pv.2)) := by
  induction fields, pk using flattenItems.induct with
  | case1 pk => intro _; simp [flattenItems_nil, allLeaves_nil]
  | case2 k sub rest pk ih1 ih2 =>
      intro hg
      rw [goodB_cons_iff] at hg
      obtain ⟨hk, hkdot, hdis, hsub, hrest⟩ := hg
      have hk' : k ≠ "" := hk
      simp only [dite_eq_ite] at ih1
      rw [flattenItems_obj, allLeaves_obj, List.map_append, ih1 (hsub sub rfl), ih2 hrest]
      congr 1
      rw [pyDict_of_nodupKeys _ (dottedKeys_nodup sub _ (hsub sub rfl)), List.map_map]
      apply List.map_congr_left
      intro pv hpv
      have hne := allLeaves_path_ne_nil sub pv hpv
      simp only [Function.comp]
      rw [dottedKey_cons pk k pv.1 hk' hne]
  | case3 k v rest pk hne ih =>
      intro hg
      rw [goodB_cons_iff] at hg
      obtain ⟨hk, hkdot, hdis, _, hrest⟩ := hg
      rw [flattenItems_leaf _ _ _ _ hne, allLeaves_leaf _ _ _ hne, List.map_cons, ih hrest,
        dottedKey_singleton]

theorem flatten_json_good (fields : Fields) (pk : String) (hg : goodB fields = true) :
    flatten_json fields pk = (allLeaves fields).map (fun pv => (dottedKey pk pv.1, pv.2)) := by
  unfold flatten_json
  rw [flattenItems_good fields pk hg, pyDict_of_nodupKeys _ (dottedKeys_nodup fields pk hg)]

/-! ## Re-nesting -/

theorem segInsertAll_nil_list (acc : Fields) : segInsertAll acc [] = acc := rfl

theorem segInsertAll_cons (acc : Fields) (pv : List String × JVal)
    (L : List (List String × JVal)) :
    segInsertAll acc (pv :: L) = segInsertAll (insertPath acc pv.1 pv.2) L := rfl

theorem segInsertAll_append (acc : Fields) (A B : List (List String × JVal)) :
    segInsertAll acc (A ++ B) = segInsertAll (segInsertAll acc A) B := by
  simp [segInsertAll, List.foldl_append]

theorem insertPath_single (fields : Fields) (k : String) (v : JVal) :
    insertPath fields [k] v = dictInsert fields k v := by
  simp [insertPath]

theorem insertPath_nil_long (k k2 : String) (rest : List String) (v : JVal) :
    insertPath [] (k :: k2 :: rest) v = [(k, JVal.obj (insertPath [] (k2 :: rest) v))] := by
  simp [insertPath]

theorem insertPath_cons_ne (k' : String) (w : JVal) (fs : Fields) (k k2 : String)
    (rest : List String) (v : JVal) (hne : k' ≠ k) :
    insertPath ((k', w) :: fs) (k :: k2 :: rest) v
      = (k', w) :: insertPath fs (k :: k2 :: rest) v := by
  cases w <;> simp [insertPath, hne]

theorem insertPath_cons_eq_obj (sub' fs : Fields) (k k2 : String)
    (rest : List String) (v : JVal) :
    insertPath ((k, JVal.obj sub') :: fs) (k :: k2 :: rest) v
      = (k, JVal.obj (insertPath sub' (k2 :: rest) v)) :: fs := by
  simp [insertPath]

theorem insertPath_not_mem (acc : Fields) (k k2 : String) (rest : List String) (v : JVal)
    (h : ∀ p ∈ acc, p.1 ≠ k) :
    insertPath acc (k :: k2 :: rest) v
      = acc ++ [(k, JVal.obj (insertPath [] (k2 :: rest) v))] := by
  induction acc with
  | nil => rw [insertPath_nil_long]; rfl
  | cons q fs ih =>
      obtain ⟨k', w⟩ := q
      rw [insertPath_cons_ne k' w fs k k2 rest v (h (k', w) (List.mem_cons_self _ _)),
        ih (fun p hp => h p (List.mem_cons_of_mem _ hp))]
      rfl

theorem insertPath_hit (pre : Fields) (k : String) (t : Fields) (post : Fields)
    (k2 : String) (rest : List String) (v : JVal) (h : ∀ p ∈ pre, p.1 ≠ k) :
    insertPath (pre ++ (k, JVal.obj t) :: post) (k :: k2 :: rest) v
      = pre ++ (k, JVal.obj (insertPath t (k2 :: rest) v)) :: post := by
  induction pre with
  | nil =>
      simp only [List.nil_append]
      rw [insertPath_cons_eq_obj]
  | cons q fs ih =>
      obtain ⟨k', w⟩ := q
      simp only [List.cons_append]
      rw [insertPath_cons_ne k' w _ k k2 rest v (h (k', w) (List.mem_cons_self _ _)),
        ih (fun p hp => h p (List.mem_cons_of_mem _ hp))]

theorem segInsertAll_under (k : String) (L : List (List String × JVal)) :
    ∀ (acc t : Fields), (∀ p ∈ acc, p.1 ≠ k) → (∀ pv ∈ L, pv.1 ≠ []) →
      segInsertAll (acc ++ [(k, JVal.obj t)]) (L.map (fun pv => (k :: pv.1, pv.2)))
        = acc ++ [(k, JVal.obj (segInsertAll t L))] := by
  induction L with
  | nil => intro acc t _ _; rfl
  | cons pv L' ih =>
      intro acc t hacc hL
      obtain ⟨p, v⟩ := pv
      have hp : p ≠ [] := hL (p, v) (List.mem_cons_self _ _)
      obtain ⟨p1, p', rfl⟩ := List.exists_cons_of_ne_nil hp
      rw [List.map_cons, segInsertAll_cons]
      rw [show insertPath (acc ++ [(k, JVal.obj t)]) ((k :: p1 :: p', v).1) ((k :: p1 :: p', v).2)
            = acc ++ [(k, JVal.obj (insertPath t (p1 :: p') v))] from
          insertPath_hit acc k t [] p1 p' v hacc]
      rw [ih acc (insertPath t (p1 :: p') v) hacc (fun q hq => hL q (List.mem_cons_of_mem _ hq))]
      rfl

theorem segInsertAll_under_nil (k : String) (M : List (List String × JVal))
    (hM : ∀ pv ∈ M, pv.1 ≠ []) :
    segInsertAll [] (M.map (fun pv => (k :: pv.1, pv.2)))
      = if M.isEmpty then [] else [(k, JVal.obj (segInsertAll [] M))] := by
  cases M with
  | nil => rfl
  | cons pv M' =>
      obtain ⟨p0, v0⟩ := pv
      have hp0 : p0 ≠ [] := hM (p0, v0) (List.mem_cons_self _ _)
      obtain ⟨c2, cr, rfl⟩ := List.exists_cons_of_ne_nil hp0
      simp only [List.map_cons, segInsertAll_cons, insertPath_nil_long]
      have h := segInsertAll_under k M' [] (insertPath [] (c2 :: cr) v0) (by simp)
        (fun q hq => hM q (List.mem_cons_of_mem _ hq))
      simp only [List.nil_append] at h
      rw [h, if_neg (by simp)]

theorem segInsertAll_nested (ps : List String) (L : List (List String × JVal))
    (hL : ∀ pv ∈ L, pv.1 ≠ []) :
    segInsertAll [] (L.map (fun pv => (ps ++ pv.1, pv.2)))
      = if L.isEmpty then [] else nestSegs ps (segInsertAll [] L) := by
  induction ps with
  | nil =>
      have hid : (fun pv : List String × JVal => (([] : List String) ++ pv.1, pv.2)) = id := by
        funext pv; simp
      rw [hid, List.map_id]
      cases L with
      | nil => rfl
      | cons pv L' => rw [if_neg (by simp)]; rfl
  | cons s ss ih =>
      have hcomp : (fun pv : List String × JVal => ((s :: ss) ++ pv.1, pv.2))
          = (fun pv : List String × JVal => (s :: pv.1, pv.2))
              ∘ (fun pv : List String × JVal => (ss ++ pv.1, pv.2)) := by
        funext pv; simp
      rw [hcomp, ← List.map_map]
      have hM : ∀ pv ∈ L.map (fun pv : List String × JVal => (ss ++ pv.1, pv.2)), pv.1 ≠ [] := by
        intro pv hpv
        obtain ⟨qv, hqv, rfl⟩ := List.mem_map.mp hpv
        intro hh
        exact hL qv hqv (List.append_eq_nil.mp hh).2
      rw [segInsertAll_under_nil s _ hM]
      by_cases hLe : L.isEmpty
      · rw [if_pos (by simpa using hLe), if_pos hLe]
      · rw [if_neg (by simpa using hLe), ih, if_neg hLe, if_neg hLe]
        rfl

theorem pruneFields_eq_nil_iff (fields : Fields) :
    pruneFields fields = [] ↔ allLeaves fields = [] := by
  induction fields using pruneFields.induct with
  | case1 => simp [pruneFields_nil, allLeaves_nil]
  | case2 k sub rest ih1 ih2 =>
      rw [pruneFields_obj, allLeaves_obj]
      constructor
      · intro h
        rw [List.append_eq_nil] at h
        obtain ⟨h1, h2⟩ := h
        by_cases hs : (pruneFields sub).isEmpty
        · have hsub : allLeaves sub = [] := ih1.mp (List.isEmpty_iff.mp hs)
          simp [hsub, ih2.mp h2]
        · rw [if_neg hs] at h1; simp at h1
      · intro h
        rw [List.append_eq_nil] at h
        obtain ⟨h1, h2⟩ := h
        rw [List.map_eq_nil_iff] at h1
        rw [if_pos (List.isEmpty_iff.mpr (ih1.mpr h1)), List.nil_append]
        exact ih2.mpr h2
  | case3 k v rest hne ih =>
      rw [pruneFields_leaf _ _ _ hne, allLeaves_leaf _ _ _ hne]
      simp

theorem scalarLeaves_subset_allLeaves (fields : Fields) :
    ∀ pv ∈ scalarLeaves fields, pv ∈ allLeaves fields := by
  induction fields using scalarLeaves.induct with
  | case1 => simp [scalarLeaves_nil]
  | case2 k sub rest ih1 ih2 =>
      intro pv hpv
      rw [scalarLeaves_obj] at hpv
      rw [allLeaves_obj]
      rcases List.mem_append.mp hpv with h | h
      · obtain ⟨qv, hqv, rfl⟩ := List.mem_map.mp h
        exact List.mem_append.mpr (Or.inl (List.mem_map.mpr ⟨qv, ih1 qv hqv, rfl⟩))
      · exact List.mem_append.mpr (Or.inr (ih2 pv h))
  | case3 k es rest ih =>
      intro pv hpv
      rw [scalarLeaves_arr] at hpv
      rw [allLeaves_leaf k (JVal.arr es) rest (by intro _ h; cases h)]
      exact List.mem_cons_of_mem _ (ih pv hpv)
  | case4 k v rest hne1 hne2 ih =>
      intro pv hpv
      rw [scalarLeaves_leaf _ _ _ hne1 hne2] at hpv
      rw [allLeaves_leaf _ _ _ hne1]
      rcases List.mem_cons.mp hpv with h | h
      · exact h ▸ List.mem_cons_self _ _
      · exact List.mem_cons_of_mem _ (ih pv h)

theorem scalarLeaves_prune (fields : Fields) :
    scalarLeaves (pruneFields fields) = scalarLeaves fields := by
  induction fields using pruneFields.induct with
  | case1 => rw [pruneFields_nil]
  | case2 k sub rest ih1 ih2 =>
      rw [pruneFields_obj, scalarLeaves_obj]
      by_cases hs : (pruneFields sub).isEmpty
      · rw [if_pos hs, List.nil_append, ih2]
        have h1 : allLeaves sub = [] := (pruneFields_eq_nil_iff sub).mp (List.isEmpty_iff.mp hs)
        have h2 : scalarLeaves sub = [] := by
          rw [List.eq_nil_iff_forall_not_mem]
          intro pv hpv
          have hmem := scalarLeaves_subset_allLeaves sub pv hpv
          rw [h1] at hmem
          exact absurd hmem (List.not_mem_nil pv)
        rw [h2]
        simp
      · rw [if_neg hs, List.singleton_append, scalarLeaves_obj, ih1, ih2]
  | case3 k v rest hne ih =>
      rw [pruneFields_leaf _ _ _ hne]
      cases v with
      | arr es => rw [scalarLeaves_arr, scalarLeaves_arr, ih]
      | obj sub => exact absurd rfl (fun h => hne sub h)
      | _ =>
          rw [scalarLeaves_leaf _ _ _ (by intro _ hh; cases hh) (by intro _ hh; cases hh),
            scalarLeaves_leaf _ _ _ (by intro _ hh; cases hh) (by intro _ hh; cases hh), ih]

theorem scalarLeaves_nestSegs (ps : List String) (f : Fields) :
    scalarLeaves (nestSegs ps f) = (scalarLeaves f).map (fun pv => (ps ++ pv.1, pv.2)) := by
  induction ps with
  | nil => simp [nestSegs]
  | cons s ss ih =>
      rw [show nestSegs (s :: ss) f = (s, JVal.obj (nestSegs ss f)) :: [] from rfl]
      rw [scalarLeaves_obj, ih, scalarLeaves_nil, List.append_nil, List.map_map]
      rfl

theorem segInsertAll_under_fresh (k : String) (M : List (List String × JVal))
    (hM : ∀ pv ∈ M, pv.1 ≠ []) (acc : Fields) (hacc : ∀ p ∈ acc, p.1 ≠ k) :
    segInsertAll acc (M.map (fun pv => (k :: pv.1, pv.2)))
      = if M.isEmpty then acc else acc ++ [(k, JVal.obj (segInsertAll [] M))] := by
  cases M with
  | nil => rfl
  | cons pv M' =>
      obtain ⟨p0, v0⟩ := pv
      have hp0 : p0 ≠ [] := hM (p0, v0) (List.mem_cons_self _ _)
      obtain ⟨c2, cr, rfl⟩ := List.exists_cons_of_ne_nil hp0
      simp only [List.map_cons, segInsertAll_cons]
      rw [insertPath_not_mem acc k c2 cr v0 hacc]
      rw [segInsertAll_under k M' acc _ hacc (fun q hq => hM q (List.mem_cons_of_mem _ hq)),
        if_neg (by simp)]

theorem segInsertAll_allLeaves (fields : Fields) :
    goodB fields = true →
      ∀ acc : Fields, (∀ p ∈ acc, ∀ q ∈ fields, p.1 ≠ q.1) →
        segInsertAll acc (allLeaves fields) = acc ++ pruneFields fields := by
  induction fields using allLeaves.induct with
  | case1 =>
      intro _ acc _
      rw [allLeaves_nil, pruneFields_nil, segInsertAll_nil_list, List.append_nil]
  | case2 k sub rest ih1 ih2 =>
      intro hg acc hacc
      rw [goodB_cons_iff] at hg
      obtain ⟨hk, hkdot, hdis, hsub, hrest⟩ := hg
      have hgsub := hsub sub rfl
      have hacck : ∀ p ∈ acc, p.1 ≠ k :=
        fun p hp => hacc p hp (k, JVal.obj sub) (List.mem_cons_self _ _)
      rw [allLeaves_obj, segInsertAll_append, pruneFields_obj]
      rw [segInsertAll_under_fresh k (allLeaves sub) (allLeaves_path_ne_nil sub) acc hacck]
      by_cases hAL : (allLeaves sub).isEmpty
      · rw [if_pos hAL,
          if_pos (List.isEmpty_iff.mpr ((pruneFields_eq_nil_iff sub).mpr (List.isEmpty_iff.mp hAL))),
          List.nil_append]
        exact ih2 hrest acc (fun p hp q hq => hacc p hp q (List.mem_cons_of_mem _ hq))
      · have hpne : ¬ ((pruneFields sub).isEmpty = true) := by
          intro hh
          have h1 : pruneFields sub = [] := List.isEmpty_iff.mp hh
          have h2 : allLeaves sub = [] := (pruneFields_eq_nil_iff sub).mp h1
          exact hAL (List.isEmpty_iff.mpr h2)
        rw [if_neg hAL, if_neg hpne, ih1 hgsub [] (by simp), List.nil_append]
        rw [ih2 hrest (acc ++ [(k, JVal.obj (pruneFields sub))]) ?hdisj]
        · simp
        case hdisj =>
          intro p hp q hq
          rcases List.mem_append.mp hp with h | h
          · exact hacc p h q (List.mem_cons_of_mem _ hq)
          · have hpk : p = (k, JVal.obj (pruneFields sub)) := by simpa using h
            rw [hpk]
            intro hh
            exact hdis q.1 q.2 (by simpa using hq) hh.symm
  | case3 k v rest hne ih =>
      intro hg acc hacc
      rw [goodB_cons_iff] at hg
      obtain ⟨hk, hkdot, hdis, _, hrest⟩ := hg
      rw [allLeaves_leaf _ _ _ hne, pruneFields_leaf _ _ _ hne]
      simp only [segInsertAll_cons]
      rw [insertPath_single,
        dictInsert_of_not_mem acc k v (fun p hp => hacc p hp (k, v) (List.mem_cons_self _ _))]
      rw [ih hrest (acc ++ [(k, v)]) ?hdisj]
      · simp
      case hdisj =>
        intro p hp q hq
        rcases List.mem_append.mp hp with h | h
        · exact hacc p h q (List.mem_cons_of_mem _ hq)
        · have hpk : p = (k, v) := by simpa using h
          rw [hpk]
          intro hh
          exact hdis q.1 q.2 (by simpa using hq) hh.symm

theorem renest_eq_segInsertAll (flat : Fields) :
    renest flat = segInsertAll [] (flat.map (fun kv => (splitDots kv.1, kv.2))) := by
  unfold renest segInsertAll
  rw [List.foldl_map]

theorem renest_flatten (fields : Fields) (pk : String) (hg : goodB fields = true) :
    renest (flatten_json fields pk)
      = if (allLeaves fields).isEmpty then []
        else nestSegs (parentSegs pk) (pruneFields fields) := by
  rw [flatten_json_good fields pk hg, renest_eq_segInsertAll, List.map_map]
  have hmap : (allLeaves fields).map
        ((fun kv : String × JVal => (splitDots kv.1, kv.2))
          ∘ fun pv : List String × JVal => (dottedKey pk pv.1, pv.2))
      = (allLeaves fields).map (fun pv => (parentSegs pk ++ pv.1, pv.2)) := by
    apply List.map_congr_left
    intro pv hpv
    simp only [Function.comp]
    rw [splitDots_dottedKey pk pv.1 (allLeaves_path_ne_nil fields pv hpv)
      (fun s hs hc => (allLeaves_segs_good fields hg pv hpv s hs).2 (List.elem_iff.mp hc))]
  rw [hmap, segInsertAll_nested (parentSegs pk) (allLeaves fields) (allLeaves_path_ne_nil fields)]
  by_cases hL : (allLeaves fields).isEmpty
  · rw [if_pos hL, if_pos hL]
  · rw [if_neg hL, if_neg hL, segInsertAll_allLeaves fields hg [] (by simp), List.nil_append]

theorem renest_flatten_scalar (fields : Fields) (pk : String) (hg : goodB fields = true) :
    scalarLeaves (renest (flatten_json fields pk))
      = (scalarLeaves fields).map (fun pv => (parentSegs pk ++ pv.1, pv.2)) := by
  rw [renest_flatten fields pk hg]
  by_cases hL : (allLeaves fields).isEmpty
  · rw [if_pos hL]
    have h1 : allLeaves fields = [] := List.isEmpty_iff.mp hL
    have h2 : scalarLeaves fields = [] := by
      rw [List.eq_nil_iff_forall_not_mem]
      intro pv hpv
      have hmem := scalarLeaves_subset_allLeaves fields pv hpv
      rw [h1] at hmem
      exact absurd hmem (List.not_mem_nil pv)
    rw [h2, scalarLeaves_nil]
    rfl
  · rw [if_neg hL, scalarLeaves_nestSegs, scalarLeaves_prune]

/-! ## Claim C1: flatten/re-nest round trip -/

/-- C1 (amended): for every Record whose keys at every nesting level are
nonempty, contain no `'.'`, and are pairwise distinct, and for every prefix
`pk`, flattening with `flatten_json` under `pk` and then re-nesting (splitting
each flattened key on `'.'` and rebuilding a tree) reconstructs exactly the
scalar (non-mapping, non-sequence) leaves of the Record, each under the
segments contributed by `pk`: flattening is lossless for such leaves. -/
theorem flatten_renest_reconstructs_scalar_leaves (fields : Fields) (pk : String)
    (hg : goodB fields = true) :
    scalarLeaves (renest (flatten_json fields pk))
      = (scalarLeaves fields).map (fun pv => (parentSegs pk ++ pv.1, pv.2)) :=
  renest_flatten_scalar fields pk hg

/-- C1 witness: the round trip on the concrete Record
`{"a": {"b": 1, "c": [2]}, "d": "x"}` under prefix `"p"`. -/
theorem flatten_renest_reconstructs_scalar_leaves_witness :
    goodB [("a", JVal.obj [("b", JVal.num 1), ("c", JVal.arr [JVal.num 2])]),
        ("d", JVal.str "x")] = true
    ∧ scalarLeaves (renest (flatten_json
          [("a", JVal.obj [("b", JVal.num 1), ("c", JVal.arr [JVal.num 2])]),
           ("d", JVal.str "x")] "p"))
        = (scalarLeaves
            [("a", JVal.obj [("b", JVal.num 1), ("c", JVal.arr [JVal.num 2])]),
             ("d", JVal.str "x")]).map (fun pv => (parentSegs "p" ++ pv.1, pv.2)) :=
  ⟨by simp [goodB],
   flatten_renest_reconstructs_scalar_leaves _ "p" (by simp [goodB])⟩

/-- C1 counterexample: for the Record `{"a.b": 1}` — a key containing `'.'` —
flattening then re-nesting yields the scalar leaf at segment path
`["a", "b"]`, not the Record's own scalar leaf at path `["a.b"]`, so the
round trip as claimed for *every* Record fails. -/
theorem flatten_renest_counterexample :
    scalarLeaves (renest (flatten_json [("a.b", JVal.num 1)] ""))
      ≠ (scalarLeaves [("a.b", JVal.num 1)]).map
          (fun pv => (parentSegs "" ++ pv.1, pv.2)) := by
  simp [flatten_json, flattenItems, pyDict, dictInsert, renest, splitDots, splitOnChar,
    splitChars, insertPath, scalarLeaves, parentSegs]

/-! ## Claim C5: what flatten_json computes -/

/-- C5 (amended): on every Record whose keys at every nesting level are
nonempty, contain no `'.'`, and are pairwise distinct, `flatten_json` expands
exactly the mapping values, joining parent path, `'.'` and child key
recursively, and stores every non-mapping value (sequences included, which are
not recursively flattened) as a leaf unchanged; with the empty prefix the keys
are the Record's own top-level-down dot paths with no prefix segment. -/
theorem flatten_json_expands_mappings (fields : Fields) (pk : String)
    (hg : goodB fields = true) :
    flatten_json fields pk
      = (allLeaves fields).map (fun pv => (dottedKey pk pv.1, pv.2))
    ∧ flatten_json fields ""
      = (allLeaves fields).map (fun pv => (joinDots pv.1, pv.2)) := by
  refine ⟨flatten_json_good fields pk hg, ?_⟩
  rw [flatten_json_good fields "" hg]
  simp [dottedKey]

/-- C5 witness: flattening the concrete Record
`{"a": {"b": 1, "c": [2]}, "d": "x"}` under prefix `"q"`. -/
theorem flatten_json_expands_mappings_witness :
    goodB [("a", JVal.obj [("b", JVal.num 1), ("c", JVal.arr [JVal.num 2])]),
        ("d", JVal.str "x")] = true
    ∧ (flatten_json
          [("a", JVal.obj [("b", JVal.num 1), ("c", JVal.arr [JVal.num 2])]),
           ("d", JVal.str "x")] "q"
        = (allLeaves
            [("a", JVal.obj [("b", JVal.num 1), ("c", JVal.arr [JVal.num 2])]),
             ("d", JVal.str "x")]).map (fun pv => (dottedKey "q" pv.1, pv.2))
      ∧ flatten_json
          [("a", JVal.obj [("b", JVal.num 1), ("c", JVal.arr [JVal.num 2])]),
           ("d", JVal.str "x")] ""
        = (allLeaves
            [("a", JVal.obj [("b", JVal.num 1), ("c", JVal.arr [JVal.num 2])]),
             ("d", JVal.str "x")]).map (fun pv => (joinDots pv.1, pv.2))) :=
  ⟨by simp [goodB], flatten_json_expands_mappings _ "q" (by simp [goodB])⟩

/-- C5 counterexample: on the Record `{"a": {"b": 1}, "a.b": 2}` (a legal
Python dict whose keys collide after dot-joining) the flattened leaf of
`"a"`'s sub-mapping is overwritten by the later entry, so flatten does not
store every non-mapping value as a leaf for *every* Record. -/
theorem flatten_json_dotkey_counterexample :
    flatten_json [("a", JVal.obj [("b", JVal.num 1)]), ("a.b", JVal.num 2)] ""
      ≠ (allLeaves [("a", JVal.obj [("b", JVal.num 1)]), ("a.b", JVal.num 2)]).map
          (fun pv => (dottedKey "" pv.1, pv.2)) := by
  simp [flatten_json, flattenItems, pyDict, dictInsert, allLeaves, dottedKey, joinDots]

/-! ## Claims C2 and C10: the Field Projector -/

theorem project_fields_nodup (filters : List String) (item : JVal) (h : filters.Nodup) :
    project_fields filters item = filters.map (fun f => (f, extract_field item f)) := by
  unfold project_fields
  apply pyDict_of_nodupKeys
  rw [List.map_map]
  have hcomp : (Prod.fst ∘ fun f : String => (f, extract_field item f)) = id := rfl
  rw [hcomp, List.map_id]
  exact h

/-- C2 (amended): for every duplicate-free ordered list of dot-path filters,
`filter_json` returns, for a Record input, a Record having exactly the
requested dot-path strings as top-level keys in the requested order, and for a
list input the same per element; every path whose resolution fails (an
intermediate key absent, or an intermediate value not a mapping) resolves to
the explicit missing sentinel (Python `None`); projection is a total function
(it never raises). -/
theorem filter_json_contract (filters : List String) (h : filters.Nodup) :
    (∀ fields : Fields, filter_json (JVal.obj fields) filters
        = JVal.obj (filters.map (fun f => (f, extract_field (JVal.obj fields) f))))
    ∧ (∀ items : List JVal, filter_json (JVal.arr items) filters
        = JVal.arr (items.map (fun it =>
            JVal.obj (filters.map (fun f => (f, extract_field it f))))))
    ∧ (∀ (o : JVal) (f : String),
        extractKeys o (splitDots f) = none → extract_field o f = JVal.null) := by
  refine ⟨?_, ?_, ?_⟩
  · intro fields
    simp only [filter_json]
    rw [project_fields_nodup filters _ h]
  · intro items
    simp only [filter_json]
    exact congrArg JVal.arr (List.map_congr_left
      (fun it _ => congrArg JVal.obj (project_fields_nodup filters it h)))
  · intro o f hk
    simp [extract_field, hk]

/-- C2 witness: projecting `{"name": "n", "meta": {"x": 1}}` on the filters
`["name", "meta.x", "nope"]`. -/
theorem filter_json_contract_witness :
    (["name", "meta.x", "nope"] : List String).Nodup
    ∧ filter_json (JVal.obj [("name", JVal.str "n"), ("meta", JVal.obj [("x", JVal.num 1)])])
          ["name", "meta.x", "nope"]
        = JVal.obj ((["name", "meta.x", "nope"] : List String).map
            (fun f => (f, extract_field
              (JVal.obj [("name", JVal.str "n"), ("meta", JVal.obj [("x", JVal.num 1)])]) f))) :=
  ⟨by simp,
   (filter_json_contract ["name", "meta.x", "nope"] (by simp)).1
     [("name", JVal.str "n"), ("meta", JVal.obj [("x", JVal.num 1)])]⟩

/-- C2 counterexample: with the duplicated filter list `["a", "a"]` the output
Record has the single key `"a"` — not the two requested keys in order — since
the Python dict comprehension collapses duplicates. -/
theorem filter_json_dup_counterexample :
    filter_json (JVal.obj [("a", JVal.num 1)]) ["a", "a"]
      ≠ JVal.obj ((["a", "a"] : List String).map
          (fun f => (f, extract_field (JVal.obj [("a", JVal.num 1)]) f))) := by
  simp [filter_json, project_fields, pyDict, dictInsert, extract_field, extractKeys,
    splitDots, splitOnChar, splitChars]

/-- C10: for every input value that is neither a mapping nor a list,
`filter_json` returns the input unchanged, with no projection, no
missing-sentinel keys and no error. -/
theorem filter_json_passthrough (v : JVal) (filters : List String)
    (hobj : ∀ fs, v ≠ JVal.obj fs) (harr : ∀ l, v ≠ JVal.arr l) :
    filter_json v filters = v := by
  cases v with
  | obj fs => exact absurd rfl (hobj fs)
  | arr l => exact absurd rfl (harr l)
  | _ => rfl

/-- C10 witness: projecting the bare number `3` returns it unchanged. -/
theorem filter_json_passthrough_witness :
    ((∀ fs, JVal.num 3 ≠ JVal.obj fs) ∧ (∀ l, JVal.num 3 ≠ JVal.arr l))
    ∧ filter_json (JVal.num 3) ["a"] = JVal.num 3 :=
  ⟨⟨fun _ h => (nomatch h), fun _ h => (nomatch h)⟩,
   filter_json_passthrough (JVal.num 3) ["a"] (fun _ h => (nomatch h)) (fun _ h => (nomatch h))⟩

/-! ## Claim C3: the cluster Resolver -/

/-- C3 (amended): for every cluster list and every *non-empty* identifier,
`get_cluster_uid` returns the uid of the first cluster whose name or uid
equals the identifier, and fails with a NotFound error
(`"Cluster '<id>' not found."`, or `"No clusters found."` when the list is
empty) when none matches; with no identifier (or an empty one, which Python's
truthiness treats as absent) it returns the single cluster's uid when exactly
one exists, fails NotFound (`"No clusters found."`) when zero exist, and fails
with an AmbiguousSelection error carrying the available cluster names when
more than one exists. -/
theorem get_cluster_uid_contract (clusters : List Cluster) (ident : String)
    (h : ident ≠ "") :
    (∀ c, clusters.find? (fun c => c.name == ident || c.uid == ident) = some c →
        get_cluster_uid clusters (some ident) = Except.ok c.uid)
    ∧ (clusters ≠ [] →
        clusters.find? (fun c => c.name == ident || c.uid == ident) = none →
        get_cluster_uid clusters (some ident)
          = Except.error ("Cluster '" ++ ident ++ "' not found."))
    ∧ (clusters = [] → ∀ idv, get_cluster_uid clusters idv = Except.error "No clusters found.")
    ∧ (∀ c, clusters = [c] → get_cluster_uid clusters none = Except.ok c.uid)
    ∧ (2 ≤ clusters.length → get_cluster_uid clusters none
        = Except.error ("Multiple clusters found. Specify a cluster with --cluster. Available clusters: "
            ++ String.intercalate ", " (clusters.map Cluster.name))) := by
  refine ⟨?_, ?_, ?_, ?_, ?_⟩
  · intro c hc
    have hne : clusters ≠ [] := by
      intro he
      rw [he] at hc
      simp at hc
    simp [get_cluster_uid, List.isEmpty_iff, hne, h, hc]
  · intro hne hc
    simp [get_cluster_uid, List.isEmpty_iff, hne, h, hc]
  · intro he idv
    simp [get_cluster_uid, List.isEmpty_iff, he]
  · intro c hc
    subst hc
    simp [get_cluster_uid, auto_select_cluster]
  · intro hlen
    match clusters, hlen with
    | a :: b :: t, _ =>
        simp [get_cluster_uid, auto_select_cluster]

/-- C3 witness: with clusters `[{a,u1},{b,u2}]` and identifier `"b"` the
resolver returns `"u2"`. -/
theorem get_cluster_uid_contract_witness :
    ("b" : String) ≠ ""
    ∧ get_cluster_uid [⟨"a", "u1"⟩, ⟨"b", "u2"⟩] (some "b") = Except.ok "u2" := by
  refine ⟨by simp, ?_⟩
  exact (get_cluster_uid_contract [⟨"a", "u1"⟩, ⟨"b", "u2"⟩] "b" (by simp)).1
    ⟨"b", "u2"⟩ (by simp [List.find?])

/-- C3 counterexample: with clusters `[{"",u1},{b,u2}]` and the identifier
`""` — which string-equals the first cluster's name — the code does not return
`"u1"`: Python's `if cluster_identifier:` treats `""` as absent and raises the
multiple-clusters error instead. -/
theorem get_cluster_uid_empty_ident_counterexample :
    get_cluster_uid [⟨"", "u1"⟩, ⟨"b", "u2"⟩] (some "") ≠ Except.ok "u1"
    ∧ get_cluster_uid [⟨"", "u1"⟩, ⟨"b", "u2"⟩] (some "")
      = Except.error ("Multiple clusters found. Specify a cluster with --cluster. Available clusters: , b") :=
  ⟨fun h => Except.noConfusion h, rfl⟩

/-! ## Claim C6: DELETE status handling -/

/-- C6 (amended): a delete reports success (`true`) iff the response status is
exactly 204; every other status in 100-599 that is not a 4xx/5xx (other 2xx
successes, but also 1xx and 3xx, which the claim said would raise) yields
`false` without raising; a 4xx/5xx status raises an HTTP error. -/
theorem delete_status_contract (status : Nat) :
    (APIClient.delete status = Except.ok true ↔ status = 204)
    ∧ (400 ≤ status ∧ status < 600 →
        APIClient.delete status = Except.error ("HTTP error " ++ toString status))
    ∧ (¬ (400 ≤ status ∧ status < 600) →
        APIClient.delete status = Except.ok (decide (status = 204))) := by
  unfold APIClient.delete raise_for_status
  by_cases h4 : 400 ≤ status ∧ status < 600
  · rw [if_pos h4]
    refine ⟨⟨fun hh => Except.noConfusion hh, fun hh => ?_⟩, fun _ => rfl,
      fun hc => absurd h4 hc⟩
    subst hh
    omega
  · rw [if_neg h4]
    refine ⟨⟨fun hh => ?_, fun hh => ?_⟩, fun hc => absurd hc h4, fun _ => rfl⟩
    · simpa using hh
    · subst hh
      simp
  
/-- C6 witness: status 204 is reported as success. -/
theorem delete_status_witness : APIClient.delete 204 = Except.ok true :=
  (delete_status_contract 204).1.mpr rfl

/-- C6 counterexample: status 304 is not 2xx, yet the delete does not raise —
`requests`' `raise_for_status` only raises for 4xx/5xx — it returns `false`. -/
theorem delete_redirect_counterexample : APIClient.delete 304 = Except.ok false := rfl

/-! ## Claim C4: all-clusters aggregation -/

theorem aggregate_departments_ok (clusters : List Cluster)
    (fetch : String → Except String (List Fields)) (filterArg : Option String)
    (results : String → List Fields) :
    (∀ c ∈ clusters, fetch c.uid = Except.ok (results c.uid)) →
    aggregate_departments clusters fetch filterArg
      = Except.ok ((clusters.map (fun c => contribOf c.name (results c.uid) filterArg)).flatten) := by
  induction clusters with
  | nil => intro _; rfl
  | cons c0 rest ih =>
      intro hok
      simp only [aggregate_departments, hok c0 (List.mem_cons_self _ _),
        ih (fun c' hc' => hok c' (List.mem_cons_of_mem _ hc')), List.map_cons, List.flatten_cons]

theorem aggregate_departments_error (clusters : List Cluster)
    (fetch : String → Except String (List Fields)) (filterArg : Option String) :
    (∃ c ∈ clusters, ∃ e, fetch c.uid = Except.error e) →
    ∃ e', aggregate_departments clusters fetch filterArg = Except.error e' := by
  induction clusters with
  | nil => rintro ⟨c, hc, _⟩; cases hc
  | cons c0 rest ih =>
      rintro ⟨c, hc, e, he⟩
      cases hf : fetch c0.uid with
      | error e0 => exact ⟨e0, by simp only [aggregate_departments, hf]⟩
      | ok deps =>
          rcases List.mem_cons.mp hc with rfl | hc'
          · rw [hf] at he
            cases he
          · obtain ⟨e', he'⟩ := ih ⟨c, hc', e, he⟩
            exact ⟨e', by simp only [aggregate_departments, hf, he']⟩

/-- C4: in the all-clusters aggregation, when every cluster's fetch succeeds
the result concatenates the per-cluster contributions in cluster-then-index
order, a cluster whose fetch returns an empty collection contributing nothing
(it is skipped, not fatal); and when any cluster's fetch raises, the whole
aggregation aborts with an error — no partial result is produced, not even
for the clusters fetched before the failure. -/
theorem aggregate_departments_contract (clusters : List Cluster)
    (fetch : String → Except String (List Fields)) (filterArg : Option String) :
    (∀ results : String → List Fields,
      (∀ c ∈ clusters, fetch c.uid = Except.ok (results c.uid)) →
      aggregate_departments clusters fetch filterArg
        = Except.ok ((clusters.map (fun c => contribOf c.name (results c.uid) filterArg)).flatten))
    ∧ ((∃ c ∈ clusters, ∃ e, fetch c.uid = Except.error e) →
        ∃ e', aggregate_departments clusters fetch filterArg = Except.error e')
    ∧ (∀ cluster_name fa, contribOf cluster_name [] fa = []) :=
  ⟨fun results hok => aggregate_departments_ok clusters fetch filterArg results hok,
   fun hex => aggregate_departments_error clusters fetch filterArg hex,
   fun _ _ => rfl⟩

/-- C4 witness: two clusters, the first with two departments and the second
with none; the aggregation returns exactly the first cluster's flattened
departments in order, nothing for the second. -/
theorem aggregate_departments_contract_witness :
    aggregate_departments [⟨"a", "u1"⟩, ⟨"b", "u2"⟩]
        (fun uid => if uid = "u1"
          then Except.ok [[("n", JVal.str "d1")], [("n", JVal.str "d2")]]
          else Except.ok []) none
      = Except.ok [[("cluster[a].department[0].n", JVal.str "d1")],
                   [("cluster[a].department[1].n", JVal.str "d2")]] := by
  rw [(aggregate_departments_contract [⟨"a", "u1"⟩, ⟨"b", "u2"⟩]
      (fun uid => if uid = "u1"
        then Except.ok [[("n", JVal.str "d1")], [("n", JVal.str "d2")]]
        else Except.ok []) none).1
    (fun uid => if uid = "u1" then [[("n", JVal.str "d1")], [("n", JVal.str "d2")]] else [])
    ?hok]
  · simp [contribOf, parse_filters, mapIdxFrom, flatten_json, flattenItems, pyDict,
      dictInsert, deptKey, show toString 0 = "0" from rfl, show toString 1 = "1" from rfl]
  case hok =>
    intro c hc
    rcases List.mem_cons.mp hc with rfl | hc2
    · rfl
    rcases List.mem_cons.mp hc2 with rfl | hc3
    · rfl
    cases hc3

/-! ## Claim C9: cluster tags in output prefixes -/

/-- C9: when a (truthy) cluster selector is supplied, the listing pipeline
tags output prefixes with the user-supplied identifier string verbatim — the
selected cluster list is exactly `[{name: selector, uid: resolved}]` even when
the selector is a uid — whereas in all-clusters mode the tags are the
canonical names returned by the control plane; concretely, selecting the demo
cluster by its uid `"u1"` yields keys under `cluster[u1]`, while all-clusters
mode yields keys under `cluster[alpha]` for the same cluster. -/
theorem cluster_tag_contract :
    (∀ (clusters : List Cluster) (sel uid : String), sel ≠ "" →
      get_cluster_uid clusters (some sel) = Except.ok uid →
      select_clusters clusters (some sel) = Except.ok [⟨sel, uid⟩])
    ∧ (∀ clusters : List Cluster, clusters ≠ [] →
        select_clusters clusters none = Except.ok clusters)
    ∧ (list_departments_data demo_clusters (some "u1") demo_fetch none
        = Except.ok [[("cluster[u1].department[0].n", JVal.str "d")]]
      ∧ list_departments_data demo_clusters none demo_fetch none
        = Except.ok [[("cluster[alpha].department[0].n", JVal.str "d")]]) := by
  refine ⟨?_, ?_, ?_, ?_⟩
  · intro clusters sel uid hsel hok
    simp [select_clusters, hsel, hok]
  · intro clusters hne
    simp [select_clusters, select_all, List.isEmpty_iff, hne]
  · simp [list_departments_data, select_clusters, select_all, get_cluster_uid,
      demo_clusters, demo_fetch, auto_select_cluster, aggregate_departments, contribOf,
      parse_filters, mapIdxFrom, flatten_json, flattenItems, pyDict, dictInsert, deptKey,
      show toString 0 = "0" from rfl]
  · simp [list_departments_data, select_clusters, select_all, get_cluster_uid,
      demo_clusters, demo_fetch, auto_select_cluster, aggregate_departments, contribOf,
      parse_filters, mapIdxFrom, flatten_json, flattenItems, pyDict, dictInsert, deptKey,
      show toString 0 = "0" from rfl]

/-- C9 witness: selecting by uid `"u1"` puts the verbatim identifier into the
cluster reference used for tagging. -/
theorem cluster_tag_contract_witness :
    select_clusters demo_clusters (some "u1") = Except.ok [⟨"u1", "u1"⟩] :=
  cluster_tag_contract.1 demo_clusters "u1" "u1" (by simp) rfl

/-! ## Claim C7: what the json output mode serializes -/

theorem flattenItems_values_not_obj (fields : Fields) (pk : String) :
    ∀ kv ∈ flattenItems fields pk, ∀ sub, kv.2 ≠ JVal.obj sub := by
  induction fields, pk using flattenItems.induct with
  | case1 pk => simp [flattenItems_nil]
  | case2 k sub rest pk ih1 ih2 =>
      simp only [dite_eq_ite] at ih1
      intro kv hkv sub' hh
      rw [flattenItems_obj] at hkv
      rcases List.mem_append.mp hkv with h | h
      · exact ih1 kv (mem_pyDict _ kv h) sub' hh
      · exact ih2 kv h sub' hh
  | case3 k v rest pk hne ih =>
      intro kv hkv sub' hh
      rw [flattenItems_leaf _ _ _ _ hne] at hkv
      rcases List.mem_cons.mp hkv with h | h
      · rw [h] at hh
        exact hne sub' hh
      · exact ih kv h sub' hh

theorem flatten_json_values_not_obj (fields : Fields) (pk : String) :
    ∀ kv ∈ flatten_json fields pk, ∀ sub, kv.2 ≠ JVal.obj sub :=
  fun kv hkv => flattenItems_values_not_obj fields pk kv (mem_pyDict _ kv hkv)

theorem mem_mapIdxFrom {α β : Type} (f : Nat → α → β) :
    ∀ (i : Nat) (l : List α) (b : β), b ∈ mapIdxFrom f i l → ∃ j a, a ∈ l ∧ b = f j a := by
  intro i l
  induction l generalizing i with
  | nil => intro b hb; cases hb
  | cons a rest ih =>
      intro b hb
      rcases List.mem_cons.mp hb with h | h
      · exact ⟨i, a, List.mem_cons_self _ _, h⟩
      · obtain ⟨j, a', ha', hb'⟩ := ih (i + 1) b h
        exact ⟨j, a', List.mem_cons_of_mem _ ha', hb'⟩

theorem contribOf_values_not_obj (cluster_name : String) (deps : List Fields)
    (filterArg : Option String) :
    ∀ r ∈ contribOf cluster_name deps filterArg, ∀ kv ∈ r, ∀ sub, kv.2 ≠ JVal.obj sub := by
  intro r hr kv hkv sub
  simp only [contribOf] at hr
  split at hr
  · cases hr
  · obtain ⟨j, d, hd', hrd⟩ := mem_mapIdxFrom _ 0 _ r hr
    subst hrd
    exact flatten_json_values_not_obj d _ kv hkv sub

theorem aggregate_departments_mem (clusters : List Cluster)
    (fetch : String → Except String (List Fields)) (filterArg : Option String) :
    ∀ recs, aggregate_departments clusters fetch filterArg = Except.ok recs →
      ∀ r ∈ recs, ∃ cluster_name deps, r ∈ contribOf cluster_name deps filterArg := by
  induction clusters with
  | nil =>
      intro recs h r hr
      cases h
      cases hr
  | cons c0 rest ih =>
      intro recs h r hr
      simp only [aggregate_departments] at h
      cases hf : fetch c0.uid with
      | error e => rw [hf] at h; cases h
      | ok deps =>
          rw [hf] at h
          cases hagg : aggregate_departments rest fetch filterArg with
          | error e => rw [hagg] at h; cases h
          | ok others =>
              rw [hagg] at h
              cases h
              rcases List.mem_append.mp hr with hx | hx
              · exact ⟨c0.name, deps, hx⟩
              · exact ih others hagg r hx

/-- C7 (amended): in json output mode, `list_departments` serializes the
*flattened*, field-projected records: the emitted value is the array of the
accumulated flattened records, and every record in it is a single-level
mapping — none of its values is a nested mapping (dot-path keys, not the
original nested structure). -/
theorem json_output_flattened (clusters : List Cluster) (selector : Option String)
    (fetch : String → Except String (List Fields)) (filterArg : Option String) (v : JVal)
    (h : list_departments_json clusters selector fetch filterArg = Except.ok v) :
    ∃ recs, list_departments_data clusters selector fetch filterArg = Except.ok recs
      ∧ v = JVal.arr (recs.map JVal.obj)
      ∧ ∀ r ∈ recs, ∀ kv ∈ r, ∀ sub, kv.2 ≠ JVal.obj sub := by
  unfold list_departments_json at h
  cases hdata : list_departments_data clusters selector fetch filterArg with
  | error e => rw [hdata] at h; cases h
  | ok recs =>
      rw [hdata] at h
      cases h
      refine ⟨recs, rfl, rfl, ?_⟩
      unfold list_departments_data at hdata
      cases hsel : select_clusters clusters selector with
      | error se =>
          rw [hsel] at hdata
          cases se <;> cases hdata
      | ok cs =>
          rw [hsel] at hdata
          have hdata2 : (match aggregate_departments cs fetch filterArg with
              | Except.error e => Except.error (DeptErr.failed e)
              | Except.ok recs => Except.ok recs) = Except.ok recs := hdata
          cases hagg : aggregate_departments cs fetch filterArg with
          | error e => rw [hagg] at hdata2; cases hdata2
          | ok recs' =>
              rw [hagg] at hdata2
              cases hdata2
              intro r hr kv hkv sub
              obtain ⟨cluster_name, deps, hrc⟩ :=
                aggregate_departments_mem cs fetch filterArg _ hagg r hr
              exact contribOf_values_not_obj cluster_name deps filterArg r hrc kv hkv sub

/-- C7 witness: the demo pipeline's json value is the array of flattened
records, none of whose values is a mapping. -/
theorem json_output_flattened_witness :
    list_departments_json demo_clusters none demo_fetch none
      = Except.ok (JVal.arr [JVal.obj [("cluster[alpha].department[0].n", JVal.str "d")]])
    ∧ ∃ recs, list_departments_data demo_clusters none demo_fetch none = Except.ok recs
        ∧ JVal.arr [JVal.obj [("cluster[alpha].department[0].n", JVal.str "d")]]
            = JVal.arr (recs.map JVal.obj)
        ∧ ∀ r ∈ recs, ∀ kv ∈ r, ∀ sub, kv.2 ≠ JVal.obj sub := by
  have hj : list_departments_json demo_clusters none demo_fetch none
      = Except.ok (JVal.arr [JVal.obj [("cluster[alpha].department[0].n", JVal.str "d")]]) := by
    simp [list_departments_json, list_departments_data, select_clusters, select_all,
      demo_clusters, demo_fetch, aggregate_departments, contribOf, parse_filters,
      mapIdxFrom, flatten_json, flattenItems, pyDict, dictInsert, deptKey,
      show toString 0 = "0" from rfl]
  exact ⟨hj, json_output_flattened demo_clusters none demo_fetch none _ hj⟩

/-- C7 counterexample: a nested department `{"x": {"y": 1}}` appears in the
json output as the flattened record `{"cluster[a].department[0].x.y": 1}`, not
with its original nested structure `{"x": {"y": 1}}`. -/
theorem json_output_counterexample :
    list_departments_json [⟨"a", "u1"⟩] none
        (fun uid => if uid = "u1"
          then Except.ok [[("x", JVal.obj [("y", JVal.num 1)])]] else Except.ok []) none
      = Except.ok (JVal.arr [JVal.obj [("cluster[a].department[0].x.y", JVal.num 1)]])
    ∧ JVal.arr [JVal.obj [("cluster[a].department[0].x.y", JVal.num 1)]]
      ≠ JVal.arr [JVal.obj [("x", JVal.obj [("y", JVal.num 1)])]] := by
  constructor
  · simp [list_departments_json, list_departments_data, select_clusters, select_all,
      aggregate_departments, contribOf, parse_filters, mapIdxFrom, flatten_json,
      flattenItems, pyDict, dictInsert, deptKey, show toString 0 = "0" from rfl]
  · simp

/-! ## Claim C8: error surfacing and exit codes -/

/-- C8 (amended): an exception that propagates out of a command handler is
caught at the `main` boundary, logged as `Error: <message>`, and the process
exits 1; a normal return is printed and exits 0.  However, the department
listing handler never lets an error propagate: it catches every internal
error, logs `No clusters found.` or `Failed to fetch departments: <message>`
(not an `Error:` line), and returns `None`, so the process exits 0; the
billing handler catches internally and returns the literal string
`Error: <message>` as its *result*, also exiting 0.  Handlers without an
internal try/except (such as `add_department`) do surface exceptions, giving
`Error: <message>` and exit code 1. -/
theorem error_surfacing_contract :
    (∀ m, main_dispatch (CmdOutcome.raised m) = ("Error: " ++ m, 1))
    ∧ (∀ v, main_dispatch (CmdOutcome.returned v) = (v, 0))
    ∧ (∀ (clusters : List Cluster) (selector : Option String)
          (fetch : String → Except String (List Fields)) (filterArg : Option String),
        ∃ logs, list_departments_outcome clusters selector fetch filterArg
          = (CmdOutcome.returned "None", logs))
    ∧ (∀ (clusters : List Cluster) (selector : Option String)
          (fetch : String → Except String (List Fields)) (filterArg : Option String) (m : String),
        list_departments_data clusters selector fetch filterArg
            = Except.error (DeptErr.failed m) →
        list_departments_outcome clusters selector fetch filterArg
          = (CmdOutcome.returned "None", ["Failed to fetch departments: " ++ m]))
    ∧ (∀ (clusters : List Cluster) (selector : Option String)
          (fetch : String → Except String (List Fields)) (filterArg : Option String)
          (render : List Fields → String) (m : String),
        get_cluster_uid clusters selector = Except.error m →
        list_billing_result clusters selector fetch filterArg render = "Error: " ++ m)
    ∧ (∀ (post : Fields → Except String String) (data : Fields) (m : String),
        post data = Except.error m →
        main_dispatch (add_department_outcome post data) = ("Error: " ++ m, 1))
    ∧ (∀ (post : Fields → Except String String) (data : Fields) (v : String),
        post data = Except.ok v →
        main_dispatch (add_department_outcome post data) = (v, 0)) := by
  refine ⟨fun m => rfl, fun v => rfl, ?_, ?_, ?_, ?_, ?_⟩
  · intro clusters selector fetch filterArg
    cases h : list_departments_data clusters selector fetch filterArg with
    | error e =>
        cases e with
        | noClusters =>
            exact ⟨["No clusters found."], by unfold list_departments_outcome; rw [h]⟩
        | failed m =>
            exact ⟨["Failed to fetch departments: " ++ m],
              by unfold list_departments_outcome; rw [h]⟩
    | ok recs => exact ⟨[], by unfold list_departments_outcome; rw [h]⟩
  · intro clusters selector fetch filterArg m h
    unfold list_departments_outcome
    rw [h]
  · intro clusters selector fetch filterArg render m h
    unfold list_billing_result
    rw [h]
  · intro post data m h
    unfold add_department_outcome
    rw [h]
    rfl
  · intro post data v h
    unfold add_department_outcome
    rw [h]
    rfl

/-- C8 witness: a handler without an internal try/except whose POST raises
`boom` surfaces `Error: boom` and exit code 1 at the main boundary. -/
theorem error_surfacing_contract_witness :
    main_dispatch (add_department_outcome (fun _ => Except.error "boom") [])
      = ("Error: boom", 1) :=
  error_surfacing_contract.2.2.2.2.2.1 (fun _ => Except.error "boom") [] "boom" rfl

/-- C8 counterexample: when the department fetch raises `boom`, the handler
swallows the exception: the surfaced result is `None` with exit code 0 and
the error-level log line is `Failed to fetch departments: boom` — the user
never sees an `Error: boom` string and the process does not exit 1. -/
theorem error_surfacing_counterexample :
    list_departments_outcome [⟨"a", "u1"⟩] none (fun _ => Except.error "boom") none
      = (CmdOutcome.returned "None", ["Failed to fetch departments: boom"])
    ∧ main_dispatch (CmdOutcome.returned "None") = ("None", 0)
    ∧ ("None", (0 : Nat)) ≠ ("Error: boom", (1 : Nat))
    ∧ "Failed to fetch departments: boom" ≠ "Error: boom" := by
  refine ⟨rfl, rfl, by simp, by simp⟩
